import Mathlib

/-!
Verification of the parsing core of X-EISD (`src/xeisd/components/parser.py`).

A file is modelled as the list of lines returned by `readlines`, each line a
list of characters without its trailing newline (Python's `split()`,
`strip()` and `'_' in line` make the newline immaterial for the behaviours
studied here).  Python dictionaries are modelled as insertion-ordered
association lists, exceptions as an `Except` error type, and `float` values
by their exact decimal reading `num * 10 ^ exp10` (the parsers only convert
and store numerals; no float arithmetic occurs).
-/

namespace XEISD

/-- A Python string, modelled as its character list. -/
abbrev Str := List Char

/-- Character list of a Lean string literal. -/
def strL (s : String) : Str := s.data

/-- Python whitespace characters recognised by `str.split()` / `str.strip()`. -/
def pyIsSpace (c : Char) : Bool :=
  c = ' ' || c = '\t' || c = '\n' || c = '\r' || c = Char.ofNat 11 || c = Char.ofNat 12

/-- Split at every character satisfying `p`, keeping empty pieces: the
semantics of Python `s.split(sep)` for a one-character separator
(`''.split(sep) = ['']`). -/
def splitOn (p : Char → Bool) : Str → List Str
  | [] => [[]]
  | c :: rest =>
    if p c then [] :: splitOn p rest
    else
      match splitOn p rest with
      | t :: ts => (c :: t) :: ts
      | [] => [[c]]

/-- Python `s.split()`: split on whitespace runs, discarding empty pieces. -/
def pysplit (l : Str) : List Str := (splitOn pyIsSpace l).filter (fun t => t ≠ [])

/-- Python `s.split(',')`. -/
def splitComma (l : Str) : List Str := splitOn (fun c => c = ',') l

/-- Python `s.split('.')`. -/
def splitDot (l : Str) : List Str := splitOn (fun c => c = '.') l

/-- Python `s.strip()`. -/
def pyStrip (l : Str) : Str :=
  ((l.dropWhile pyIsSpace).reverse.dropWhile pyIsSpace).reverse

/-- Python `'_' in s`. -/
def hasUnderscore (l : Str) : Bool := l.any (fun c => c = '_')

/-- The Python exceptions the parser code can raise (`parserError` and
`emptyDataError` stand for `pandas.errors.ParserError` and
`pandas.errors.EmptyDataError` raised by `pd.read_csv`). -/
inductive PyErr where
  | typeError
  | indexError
  | keyError
  | nameError
  | valueError
  | parserError
  | emptyDataError
deriving DecidableEq, Repr

instance {ε α : Type} [DecidableEq ε] [DecidableEq α] : DecidableEq (Except ε α) := fun a b =>
  match a, b with
  | .error e, .error e' =>
    if h : e = e' then .isTrue (by rw [h]) else .isFalse (by simp [h])
  | .error _, .ok _ => .isFalse (by simp)
  | .ok _, .error _ => .isFalse (by simp)
  | .ok x, .ok y =>
    if h : x = y then .isTrue (by rw [h]) else .isFalse (by simp [h])

/-- A Python float value obtained by reading a decimal numeral, kept as the
exact value `num * 10 ^ exp10`.  The parsers only convert and store such
numerals, so this exact representation is faithful. -/
structure PyFloat where
  num : Int
  exp10 : Int
deriving DecidableEq, Repr

/-- The Python float `0.0` that the NOE/PRE bound placeholder is replaced by. -/
def pyZero : PyFloat := ⟨0, 0⟩

/-- Numeric value of a digit string (empty gives 0; guarded by `allDigits`). -/
def digitsVal (l : Str) : Nat := l.foldl (fun a c => a * 10 + (c.toNat - 48)) 0

/-- A nonempty, all-digit character list. -/
def allDigits (l : Str) : Bool := !l.isEmpty && l.all Char.isDigit

/-- Mantissa of a Python float literal: `123`, `123.`, `123.45`, `.45`. -/
def pyMantissa? (l : Str) : Option PyFloat :=
  match l.span (fun c => c ≠ '.') with
  | (ip, []) => if allDigits ip then some ⟨(digitsVal ip : Int), 0⟩ else none
  | (ip, _ :: fp) =>
    if fp.any (fun c => c = '.') then none
    else if ip.all Char.isDigit && fp.all Char.isDigit && (!ip.isEmpty || !fp.isEmpty) then
      some ⟨(digitsVal ip : Int) * (10 : Int) ^ fp.length + (digitsVal fp : Int),
            -(fp.length : Int)⟩
    else none

/-- Strip one leading sign: Python numerals allow a single `+`/`-`. -/
def pySign : Str → Bool × Str
  | '-' :: r => (true, r)
  | '+' :: r => (false, r)
  | l => (false, l)

/-- Model of Python `float(s)` on decimal notation (sign, digits, optional
fraction, optional exponent); `none` models `ValueError`.  The `inf`/`nan`
spellings and digit-group underscores never occur in the file formats at
hand and are not modelled. -/
def pyfloat? (s : Str) : Option PyFloat :=
  let sl := pySign (pyStrip s)
  let me := sl.2.span (fun c => c ≠ 'e' && c ≠ 'E')
  let withExp : Option PyFloat :=
    match me.2 with
    | [] => pyMantissa? me.1
    | _ :: ex =>
      let se := pySign ex
      if allDigits se.2 then
        (pyMantissa? me.1).map (fun m =>
          ⟨m.num, m.exp10 + (if se.1 then -(digitsVal se.2 : Int) else (digitsVal se.2 : Int))⟩)
      else none
  withExp.map (fun v => if sl.1 then ⟨-v.num, v.exp10⟩ else v)

/-! ### Constants imported from `xeisd.components`

The `xeisd/components/__init__.py` module is not among the sources under
study; only `parser.py` (which imports these names) and `cli_score.py` are.
The values below are modelled from the spec and the docstrings of the two
source files (modality names match the `exp_*.saxs`, `exp_*.cs`, ... file
extensions; the generic dialect's header starts with the alignment-index
column `index`; modes are `exp`/`bc`). -/

/-- Modelled from the spec: the alignment-index column name of the generic
(comma-delimited) dialect, whose appearance as the first comma token of the
first line triggers dialect detection. -/
def exp_idx : Str := strL "index"

/-- Modelled from the spec: scattering modality name. -/
def saxs_name : Str := strL "saxs"

/-- Modelled from the spec: chemical-shift modality name. -/
def cs_name : Str := strL "cs"

/-- Modelled from the spec: FRET modality name. -/
def fret_name : Str := strL "fret"

/-- Modelled from the spec: J-coupling modality name. -/
def jc_name : Str := strL "jc"

/-- Modelled from the spec: NOE modality name. -/
def noe_name : Str := strL "noe"

/-- Modelled from the spec: PRE modality name. -/
def pre_name : Str := strL "pre"

/-- Modelled from the spec: RDC modality name. -/
def rdc_name : Str := strL "rdc"

/-- Modelled from the spec: hydrodynamic-radius modality name. -/
def rh_name : Str := strL "rh"

/-- Modelled from the spec: the experimental parse mode flag (`'exp'` per the
`parse_data` docstring). -/
def parse_mode_exp : Str := strL "exp"

/-- Modelled from the spec: the back-calculated parse mode flag (`'bc'` per
the `parse_data` docstring). -/
def parse_mode_back : Str := strL "bc"

/-- Modelled from the spec: the fixed mu constant attached to back-calculated
J-coupling data.  The spec names the constant but fixes no scalar; the value
chosen here is a placeholder and no claim depends on it. -/
def jc_bc_mu : PyFloat := ⟨7, -1⟩

/-! ### `parse_saxs_data` (parser.py lines 120-139) -/

/-- The three columns of the DataFrame built by `parse_saxs_data`.  The
source appends raw `split()` tokens without numeric conversion, so the
columns hold strings. -/
structure SaxsDF where
  index : List Str
  value : List Str
  error : List Str
deriving DecidableEq, Repr

/-- `type(splitted[0]) is float`: `str.split` yields `str` objects, so this
test is false for every token of a text line. -/
def pyTypeIsFloat (_ : Str) : Bool := false

/-- The row loop of `parse_saxs_data`: for each line `splitted = line.split()`;
evaluating `splitted[0]` raises `IndexError` on a token-less line; a row is
appended only when `type(splitted[0]) is float`. -/
def saxsRows : List Str → Except PyErr (List (Str × Str × Str))
  | [] => .ok []
  | l :: rest =>
    match pysplit l with
    | [] => .error .indexError
    | t0 :: ts =>
      if pyTypeIsFloat t0 then
        match ts with
        | t1 :: t2 :: _ => do
          let rows ← saxsRows rest
          .ok ((t0, t1, t2) :: rows)
        | _ => .error .indexError
      else saxsRows rest

/-- `parse_saxs_data`: raise `TypeError` when the first comma token of the
first line equals the generic-dialect index header, otherwise run the row
loop over all lines (`lines[0]` of an empty file raises `IndexError`). -/
def parse_saxs_data (lines : List Str) : Except PyErr SaxsDF :=
  match lines with
  | [] => .error .indexError
  | first :: _ =>
    if (splitComma first).headI = exp_idx then .error .typeError
    else do
      let rows ← saxsRows lines
      .ok ⟨rows.map (·.1), rows.map (fun r => r.2.1), rows.map (fun r => r.2.2)⟩

/-! ### Common Python-operation helpers -/

/-- Read of a Python local variable never assigned: `NameError`. -/
def pyVar (v : Option Nat) : Except PyErr Nat :=
  match v with
  | some k => .ok k
  | none => .error .nameError

/-- Python `l[k]`, raising `IndexError` out of range. -/
def pyIndex {α : Type} (l : List α) (k : Nat) : Except PyErr α :=
  match l.get? k with
  | some x => .ok x
  | none => .error .indexError

/-- Python `float(tok)`, raising `ValueError` on a non-numeral. -/
def pyfloatE (tok : Str) : Except PyErr PyFloat :=
  match pyfloat? tok with
  | some v => .ok v
  | none => .error .valueError

/-- Python dict assignment `d[k] = v` on an insertion-ordered dict. -/
def dictSet {α : Type} (d : List (Str × α)) (k : Str) (v : α) : List (Str × α) :=
  if d.any (fun e => e.1 = k) then d.map (fun e => if e.1 = k then (k, v) else e)
  else d ++ [(k, v)]

/-- Python dict lookup `d[k]` as an option. -/
def dictGet? {α : Type} (d : List (Str × α)) (k : Str) : Option α :=
  (d.find? (fun e => e.1 = k)).map (·.2)

/-- Python `del d[k]`: `KeyError` when the key is absent. -/
def dictDel {α : Type} (d : List (Str × α)) (k : Str) : Except PyErr (List (Str × α)) :=
  if d.any (fun e => e.1 = k) then .ok (d.filter (fun e => e.1 ≠ k))
  else .error .keyError

/-! ### `parse_cs_data` (parser.py lines 142-175) -/

/-- Header-scan state of `parse_cs_data`: the line offsets recorded for the
`Val`, `Val_err` and `Atom_ID` metadata lines (`none` = the Python local was
never assigned). -/
structure CsScan where
  dataIdx : Option Nat
  errorIdx : Option Nat
  atomIdx : Option Nat
deriving DecidableEq, Repr

/-- The header scan of `parse_cs_data`: on a line containing `_`, record the
offset of the field named between the first two dots (`line.split(".")[1]`
raises `IndexError` on a dotless line); the first line without `_` ends the
scan as the data-block start.  Falling off the end leaves `start_idx`
unassigned, so the later `range(start_idx, ...)` raises `NameError`. -/
def csScan (st : CsScan) (i : Nat) : List Str → Except PyErr (CsScan × Nat)
  | [] => .error .nameError
  | l :: rest =>
    if hasUnderscore l then
      match splitDot l with
      | _ :: d :: _ =>
        let dtype := pyStrip d
        let st' :=
          if dtype = strL "Val" then { st with dataIdx := some i }
          else if dtype = strL "Val_err" then { st with errorIdx := some i }
          else if dtype = strL "Atom_ID" then { st with atomIdx := some i }
          else st
        csScan st' (i + 1) rest
      | _ => .error .indexError
    else .ok (st, i)

/-- One data row of `parse_cs_data`: whitespace-split the line and extract,
positionally, the atom token and the float-converted value and error. -/
structure CsRow where
  index : Nat
  atm : Str
  value : PyFloat
  error : PyFloat
deriving DecidableEq, Repr

/-- The body of the data loop of `parse_cs_data` for line offset `idx`:
`index.append(idx)`; `atoms.append(splitted[atom_idx])`;
`values.append(float(splitted[data_idx]))`;
`errors.append(float(splitted[error_idx]))`. -/
def csRow (st : CsScan) (idx : Nat) (l : Str) : Except PyErr CsRow := do
  let splitted := pysplit l
  let atm ← pyIndex splitted (← pyVar st.atomIdx)
  let v ← pyfloatE (← pyIndex splitted (← pyVar st.dataIdx))
  let e ← pyfloatE (← pyIndex splitted (← pyVar st.errorIdx))
  .ok ⟨idx, atm, v, e⟩

/-- The data loop of `parse_cs_data` over `range(start_idx, len(lines))`. -/
def csRowsGo (st : CsScan) (i : Nat) : List Str → Except PyErr (List CsRow)
  | [] => .ok []
  | l :: rest => do
    let r ← csRow st i l
    let rs ← csRowsGo st (i + 1) rest
    .ok (r :: rs)

/-- The four columns of the DataFrame built by `parse_cs_data`. -/
structure CsDF where
  index : List Nat
  atmID : List Str
  value : List PyFloat
  error : List PyFloat
deriving DecidableEq, Repr

/-- `parse_cs_data`: generic-dialect header check, header scan, data loop. -/
def parse_cs_data (lines : List Str) : Except PyErr CsDF :=
  match lines with
  | [] => .error .indexError
  | first :: _ =>
    if (splitComma first).headI = exp_idx then .error .typeError
    else do
      let sr ← csScan ⟨none, none, none⟩ 0 lines
      let rows ← csRowsGo sr.1 sr.2 (lines.drop sr.2)
      .ok ⟨rows.map (·.index), rows.map (·.atm), rows.map (·.value), rows.map (·.error)⟩

/-! ### `parse_nmrstar_data` (parser.py lines 178-223) -/

/-- `type == noe_name or type == pre_name`: the calls that ask for the
upper/lower bound columns. -/
def isBoundsType (ty : Option Str) : Bool := ty = some noe_name || ty = some pre_name

/-- Header-scan state of `parse_nmrstar_data`. -/
structure NmrScan where
  dataIdx : Option Nat
  errorIdx : Option Nat
  maxIdx : Option Nat
  minIdx : Option Nat
deriving DecidableEq, Repr

/-- The header scan of `parse_nmrstar_data`: like `csScan`, recording `Val`
and `Val_err` offsets, and additionally `Val_max`/`Val_min` offsets when
invoked for NOE or PRE. -/
def nmrScan (ty : Option Str) (st : NmrScan) (i : Nat) :
    List Str → Except PyErr (NmrScan × Nat)
  | [] => .error .nameError
  | l :: rest =>
    if hasUnderscore l then
      match splitDot l with
      | _ :: d :: _ =>
        let dtype := pyStrip d
        let st1 :=
          if dtype = strL "Val" then { st with dataIdx := some i }
          else if dtype = strL "Val_err" then { st with errorIdx := some i }
          else st
        let st2 :=
          if isBoundsType ty then
            if dtype = strL "Val_max" then { st1 with maxIdx := some i }
            else if dtype = strL "Val_min" then { st1 with minIdx := some i }
            else st1
          else st1
        nmrScan ty st2 (i + 1) rest
      | _ => .error .indexError
    else .ok (st, i)

/-- One data row of `parse_nmrstar_data`; `bounds` is the `(upper, lower)`
pair appended for NOE/PRE and absent otherwise. -/
structure NmrRow where
  index : Nat
  value : PyFloat
  error : PyFloat
  bounds : Option (PyFloat × PyFloat)
deriving DecidableEq, Repr

/-- The body of the data loop of `parse_nmrstar_data`: value and error are
float-converted from the recorded offsets; for NOE/PRE the bound tokens are
fetched, a bound equal to the placeholder `.` is replaced by the float
`0.0`, and the bounds are float-converted and appended. -/
def nmrRow (ty : Option Str) (st : NmrScan) (idx : Nat) (l : Str) :
    Except PyErr NmrRow := do
  let splitted := pysplit l
  let v ← pyfloatE (← pyIndex splitted (← pyVar st.dataIdx))
  let e ← pyfloatE (← pyIndex splitted (← pyVar st.errorIdx))
  if isBoundsType ty then do
    let mx ← pyIndex splitted (← pyVar st.maxIdx)
    let mn ← pyIndex splitted (← pyVar st.minIdx)
    let up ← if mx = strL "." then .ok pyZero else pyfloatE mx
    let lo ← if mn = strL "." then .ok pyZero else pyfloatE mn
    .ok ⟨idx, v, e, some (up, lo)⟩
  else .ok ⟨idx, v, e, none⟩

/-- The data loop of `parse_nmrstar_data` over `range(start_idx, len(lines))`. -/
def nmrRowsGo (ty : Option Str) (st : NmrScan) (i : Nat) :
    List Str → Except PyErr (List NmrRow)
  | [] => .ok []
  | l :: rest => do
    let r ← nmrRow ty st i l
    let rs ← nmrRowsGo ty st (i + 1) rest
    .ok (r :: rs)

/-- The DataFrame built by `parse_nmrstar_data`.  `hasBounds` records which
of the two column sets is returned; `upper`/`lower` are empty when it is
`false`. -/
structure NmrDF where
  index : List Nat
  value : List PyFloat
  upper : List PyFloat
  lower : List PyFloat
  error : List PyFloat
  hasBounds : Bool
deriving DecidableEq, Repr

/-- `parse_nmrstar_data`: generic-dialect header check, header scan, data
loop, then one of the two DataFrame shapes. -/
def parse_nmrstar_data (lines : List Str) (ty : Option Str := none) :
    Except PyErr NmrDF :=
  match lines with
  | [] => .error .indexError
  | first :: _ =>
    if (splitComma first).headI = exp_idx then .error .typeError
    else do
      let sr ← nmrScan ty ⟨none, none, none, none⟩ 0 lines
      let rows ← nmrRowsGo ty sr.1 sr.2 (lines.drop sr.2)
      if isBoundsType ty then
        .ok ⟨rows.map (·.index), rows.map (·.value),
             rows.map (fun r => (r.bounds.getD (pyZero, pyZero)).1),
             rows.map (fun r => (r.bounds.getD (pyZero, pyZero)).2),
             rows.map (·.error), true⟩
      else
        .ok ⟨rows.map (·.index), rows.map (·.value), [], [], rows.map (·.error), false⟩

/-! ### `parse_bc_errors` (parser.py lines 226-252) -/

/-- A sigma entry of the uncertainty table: a scalar, or (for chemical
shift) a per-atom-type mapping. -/
inductive SigmaVal where
  | num (v : PyFloat)
  | table (kvs : List (Str × PyFloat))
deriving DecidableEq, Repr

/-- The uncertainty table: modality name to sigma entry. -/
abbrev BcErrors := List (Str × SigmaVal)

/-- Modelled from the spec: the process-wide default uncertainty table maps
every modality name to a scalar sigma, and the chemical-shift modality to a
per-atom-type mapping.  The spec fixes no numeric values; representative
placeholders are used and no claim's verdict depends on them. -/
def default_bc_errors : BcErrors :=
  [(saxs_name, .num ⟨5, -2⟩),
   (cs_name, .table [(strL "C", ⟨12, -1⟩), (strL "CA", ⟨84, -2⟩)]),
   (fret_name, .num ⟨4, -3⟩),
   (jc_name, .num ⟨73, -2⟩),
   (noe_name, .num ⟨23, -4⟩),
   (pre_name, .num ⟨3, -3⟩),
   (rdc_name, .num ⟨88, -2⟩),
   (rh_name, .num ⟨3, -1⟩)]

/-- The single-quote character of Python dict literals. -/
def sq : Char := Char.ofNat 39

/-- Opening brace character. -/
def lbChar : Char := Char.ofNat 123

/-- Closing brace character. -/
def rbChar : Char := Char.ofNat 125

/-- Consume a single-quoted key, returning it and the remaining input. -/
def parseQuoted (l : Str) : Option (Str × Str) :=
  match l with
  | c :: rest =>
    if c = sq then
      match rest.dropWhile (fun d => d ≠ sq) with
      | c2 :: rest2 =>
        if c2 = sq then some (rest.takeWhile (fun d => d ≠ sq), rest2) else none
      | [] => none
    else none
  | [] => none

/-- Comma-separated `key:number` entries up to the closing brace (fuel-driven
recursion; the fuel is the input length, ample for one entry per step). -/
def dictEntriesGo : Nat → Str → Option (List (Str × PyFloat))
  | 0, _ => none
  | fuel + 1, l => do
    let kr ← parseQuoted l
    match kr.2 with
    | ':' :: r2 =>
      let numtok := r2.takeWhile (fun c => c ≠ ',' && c ≠ rbChar)
      let v ← pyfloat? numtok
      match r2.dropWhile (fun c => c ≠ ',' && c ≠ rbChar) with
      | ',' :: r3 => do
        let kvs ← dictEntriesGo fuel r3
        some ((kr.1, v) :: kvs)
      | c :: r3 => if c = rbChar && r3.isEmpty then some [(kr.1, v)] else none
      | [] => none
    | _ => none

/-- Modelled from Python's `ast.literal_eval`, restricted to the flat
string-to-number dict literals the merger's override files use (the spec's
`cs {'C':1.2,'CA':0.84}` shape); `none` models the exception `literal_eval`
raises on malformed input. -/
def literalDict? (l : Str) : Option (List (Str × PyFloat)) :=
  match l with
  | c :: rest =>
    if c = lbChar then
      if rest = [rbChar] then some []
      else dictEntriesGo l.length rest
    else none
  | [] => none

/-- One line of the override file: `custom[splitted[0]] = float(splitted[1])`
(`IndexError` on a short line is not caught); on `ValueError` the token is
literal-evaluated instead, any failure of which propagates. -/
def bcErrLine (d : BcErrors) (l : Str) : Except PyErr BcErrors := do
  let splitted := pysplit l
  let k ← pyIndex splitted 0
  let t ← pyIndex splitted 1
  match pyfloat? t with
  | some v => .ok (dictSet d k (.num v))
  | none =>
    match literalDict? t with
    | some kvs => .ok (dictSet d k (.table kvs))
    | none => .error .valueError

/-- The line loop of `parse_bc_errors`, threading the dict being assigned
into. -/
def bcErrLoop (d : BcErrors) : List Str → Except PyErr BcErrors
  | [] => .ok d
  | l :: rest => do bcErrLoop (← bcErrLine d l) rest

/-- `parse_bc_errors`: the source's `custom_bc_errors = default_bc_errors`
binds the very dict object held in `xeisd.components` — there is no
`.copy()` — so the dict threaded through the loop is the shared default
itself.  The function is parameterised by that dict's contents `dflt`
(`default_bc_errors` at process start). -/
def parse_bc_errors (dflt : BcErrors) (lines : List Str) : Except PyErr BcErrors :=
  bcErrLoop dflt lines

/-- The contents of the module-level `default_bc_errors` dict after
`parse_bc_errors` runs on `lines` with the dict initially holding `d`:
because of the aliasing noted at `parse_bc_errors`, every completed
assignment of the loop is visible in the shared default (on an exception the
updates already made persist). -/
def sharedDefaultAfter (d : BcErrors) : List Str → BcErrors
  | [] => d
  | l :: rest =>
    match bcErrLine d l with
    | .ok d' => sharedDefaultAfter d' rest
    | .error _ => d

/-! ### `parse_data` (parser.py lines 255-337) -/

/-- The table built by `pd.read_csv(path, delimiter=',')`: header row plus
comma-split data rows (pandas type inference and NaN padding of short rows
are abstracted away). -/
structure CsvDF where
  header : List Str
  rows : List (List Str)
deriving DecidableEq, Repr

/-- Model of `pd.read_csv(path, delimiter=',')`: pandas raises
`EmptyDataError` on an empty file and, with its default C engine,
`ParserError` on a data row holding more comma fields than the header; a
row with fewer fields is NaN-padded, not an error. -/
def readCsv (lines : List Str) : Except PyErr CsvDF :=
  match lines with
  | [] => .error .emptyDataError
  | h :: rest =>
    if rest.all (fun r => (splitComma r).length ≤ (splitComma h).length) then
      .ok ⟨splitComma h, rest.map splitComma⟩
    else .error .parserError

/-- A value of a back-calculation JSON object: `json.load` turns numbers
into `int` or `float` (recorded by `isFloat`, branched on by the loader),
strings into `str`, and nested objects into dicts. -/
inductive JEntry where
  | jnum (v : PyFloat) (isFloat : Bool)
  | jstr (s : Str)
  | jobj (kvs : List (Str × PyFloat))
deriving DecidableEq, Repr

/-- A top-level back-calculation JSON object. -/
abbrev JObj := List (Str × JEntry)

/-- The reshaped back-calculation DataFrame: `pd.DataFrame(raw, index=[0]).T`
when the first value is a float scalar, else `pd.DataFrame(raw).T`. -/
inductive BcDF where
  | scalarT (kvs : JObj)
  | tableT (kvs : JObj)
deriving DecidableEq, Repr

/-- A parsed table of any of the shapes `parse_data` produces, plus the
`pd.DataFrame(dtype=float)` the loop-carried `data` variable starts as. -/
inductive Table where
  | emptyFloat
  | saxs (df : SaxsDF)
  | cs (df : CsDF)
  | nmr (df : NmrDF)
  | csv (df : CsvDF)
  | bc (df : BcDF)
deriving DecidableEq, Repr

/-- The `Stack` container (parser.py lines 99-117): name, table, and the
optional uncertainty parameters sigma and mu. -/
structure Stack where
  name : Str
  data : Table
  sigma : Option SigmaVal
  mu : Option PyFloat
deriving DecidableEq, Repr

/-- One modality of the back-calculated branch, up to the `except`:
`json.load` the file (`raw?` is that result; an error covers a missing file
or malformed JSON), `del raw['format']` for PRE/NOE, inspect the first
value (`IndexError` on an empty object), reshape — `pd.DataFrame` refuses
all-scalar data without an index, and scalar broadcasting refuses nested
dicts — then attach `bc_errors[module]` and, for J-coupling, the fixed mu.
`bcReshape` is the inspect-and-reshape step. -/
def bcReshape (raw : JObj) : Except PyErr BcDF := do
  let firstItem ← pyIndex raw 0
  match firstItem.2 with
  | .jnum _ true =>
    if raw.all (fun e => match e.2 with | .jobj _ => false | _ => true) then
      .ok (.scalarT raw)
    else .error .valueError
  | _ =>
    if raw.all (fun e => match e.2 with | .jobj _ => true | _ => false) then
      .ok (.tableT raw)
    else .error .valueError

/-- The reshape-and-attach tail of one back-calculated modality: reshape,
look up `bc_errors[module]` (`KeyError` when absent), and build the `Stack`
with mu attached only for J-coupling. -/
def bcLoadTail (raw : JObj) (module : Str) (bc_errors : BcErrors) :
    Except PyErr Stack := do
  let data ← bcReshape raw
  let sigma ←
    match dictGet? bc_errors module with
    | some v => .ok v
    | none => .error .keyError
  if module = jc_name then .ok ⟨module, .bc data, some sigma, some jc_bc_mu⟩
  else .ok ⟨module, .bc data, some sigma, none⟩

def bcLoadModule (raw? : Except PyErr JObj) (module : Str) (bc_errors : BcErrors) :
    Except PyErr Stack := do
  let raw0 ← raw?
  let raw ←
    if module = pre_name || module = noe_name then dictDel raw0 (strL "format")
    else .ok raw0
  bcLoadTail raw module bc_errors

/-- Result of the `try` body of the experimental branch for one modality:
either the `data` variable was reassigned (falling through to
`parsed[module] = Stack(module, data, None, None)`), or FRET/Rh already
stored their container and `continue`d. -/
inductive ExpStep where
  | newData (t : Table)
  | appended (s : Stack)
deriving DecidableEq, Repr

/-- The `try` body of the experimental branch: dispatch on the modality
name; an unrecognised name matches no branch and leaves `data` unchanged.
`fs` maps a path to the `readlines` content of the file. -/
def expTryBody (fs : Str → List Str) (module fpath : Str) (data : Table) :
    Except PyErr ExpStep :=
  if module = saxs_name then (parse_saxs_data (fs fpath)).map (fun d => .newData (.saxs d))
  else if module = cs_name then (parse_cs_data (fs fpath)).map (fun d => .newData (.cs d))
  else if module = fret_name then
    (readCsv (fs fpath)).map (fun df => .appended ⟨module, .csv df, none, none⟩)
  else if module = jc_name then
    (parse_nmrstar_data (fs fpath)).map (fun d => .newData (.nmr d))
  else if module = noe_name then
    (parse_nmrstar_data (fs fpath) (some noe_name)).map (fun d => .newData (.nmr d))
  else if module = pre_name then
    (parse_nmrstar_data (fs fpath) (some pre_name)).map (fun d => .newData (.nmr d))
  else if module = rdc_name then
    (parse_nmrstar_data (fs fpath)).map (fun d => .newData (.nmr d))
  else if module = rh_name then
    (readCsv (fs fpath)).map (fun df => .appended ⟨module, .csv df, none, none⟩)
  else .ok (.newData data)

/-- One modality of the experimental branch: run the `try` body; on
`TypeError` (and only `TypeError`) re-read the same file as comma-delimited
— an exception of that re-read is raised inside the handler and propagates;
any other exception propagates.  Returns the new `data` value and the
container stored under the modality name. -/
def expModule (fs : Str → List Str) (data : Table) (module fpath : Str) :
    Except PyErr (Table × Stack) :=
  match expTryBody fs module fpath data with
  | .ok (.newData t) => .ok (t, ⟨module, t, none, none⟩)
  | .ok (.appended s) => .ok (data, s)
  | .error .typeError =>
    match readCsv (fs fpath) with
    | .ok df => .ok (.csv df, ⟨module, .csv df, none, none⟩)
    | .error e => .error e
  | .error e => .error e

/-- The experimental loop over `filenames`, threading the `data` variable
and the `parsed` dict. -/
def expFold (fs : Str → List Str) (parsed : List (Str × Stack)) (data : Table) :
    List (Str × Str) → Except PyErr (List (Str × Stack) × Table)
  | [] => .ok (parsed, data)
  | (module, fpath) :: rest => do
    let r ← expModule fs data module fpath
    expFold fs (dictSet parsed module r.2) r.1 rest

/-- The back-calculated loop over `filenames`: each modality's failure is
caught and appended to `errlogs`; a success is stored in `parsed`.  `jfs`
maps a path to the result of `open` plus `json.load`. -/
def bcFold (jfs : Str → Except PyErr JObj) (bc_errors : BcErrors)
    (parsed : List (Str × Stack)) (errlogs : List PyErr) :
    List (Str × Str) → List (Str × Stack) × List PyErr
  | [] => (parsed, errlogs)
  | (module, fpath) :: rest =>
    match bcLoadModule (jfs fpath) module bc_errors with
    | .ok s => bcFold jfs bc_errors (dictSet parsed module s) errlogs rest
    | .error e => bcFold jfs bc_errors parsed (errlogs ++ [e]) rest

/-- `parse_data`: experimental mode runs the abort-on-unexpected-failure
loop (its error log is never appended to); every other mode value runs the
resilient back-calculated loop, which never lets an exception escape. -/
def parse_data (fs : Str → List Str) (jfs : Str → Except PyErr JObj)
    (filenames : List (Str × Str)) (mode : Str)
    (bc_errors : BcErrors := default_bc_errors) :
    Except PyErr (List (Str × Stack) × List PyErr) :=
  if mode = parse_mode_exp then
    (expFold fs [] Table.emptyFloat filenames).map (fun r => (r.1, []))
  else
    .ok (bcFold jfs bc_errors [] [] filenames)

example : pyfloat? (strL "0.003") = some ⟨3, -3⟩ := by decide
example : pyfloat? (strL "123.456") = some ⟨123456, -3⟩ := by decide
example : pyfloat? (strL ".") = none := by decide
example : pyfloat? (strL "1e2") = some ⟨1, 2⟩ := by decide
example : pyfloat? (strL "-1.5") = some ⟨-15, -1⟩ := by decide
example : parse_saxs_data [strL ""] = .error .indexError := by decide
example : parse_saxs_data [strL "1.0 2.0 0.1", strL "2.0 3.0 0.2"] = .ok ⟨[], [], []⟩ := by
  decide

/-! ## Supporting lemmas -/

lemma saxsRows_eq_nil (ls : List Str) (h : ∀ l ∈ ls, pysplit l ≠ []) :
    saxsRows ls = .ok [] := by
  induction ls with
  | nil => rfl
  | cons l rest ih =>
    have h0 := h l (by simp)
    unfold saxsRows
    cases hsp : pysplit l with
    | nil => exact absurd hsp h0
    | cons t ts =>
      simp only [pyTypeIsFloat, if_neg Bool.false_ne_true, if_false]
      exact ih (fun x hx => h x (by simp [hx]))

/-! ## Claims -/

/-- C1, counterexample: the file whose single line is blank has first comma
token `""`, different from the alignment-index header, yet `parse_saxs_data`
raises `IndexError` at `splitted[0]` instead of returning a zero-row
table. -/
theorem C1_blank_line_counterexample :
    (splitComma (strL "")).headI ≠ exp_idx ∧
    parse_saxs_data [strL ""] = .error .indexError := by decide

/-- C1, amended: for every nonempty file whose first comma token differs
from the alignment-index header and each of whose lines holds at least one
whitespace-split token, `parse_saxs_data` returns the table with zero rows:
the row-acceptance predicate `type(splitted[0]) is float` is false for every
text token, so no row is ever appended. -/
theorem C1_saxs_table_always_empty (lines : List Str) (hne : lines ≠ [])
    (hhdr : (splitComma lines.headI).headI ≠ exp_idx)
    (htok : ∀ l ∈ lines, pysplit l ≠ []) :
    parse_saxs_data lines = .ok ⟨[], [], []⟩ := by
  cases lines with
  | nil => exact absurd rfl hne
  | cons first rest =>
    simp only [List.headI_cons] at hhdr
    simp only [parse_saxs_data]
    rw [if_neg hhdr, saxsRows_eq_nil _ htok]
    rfl

/-- C1 witness: a two-line scattering curve parses to the zero-row table. -/
theorem C1_saxs_table_always_empty_witness :
    parse_saxs_data [strL "1.0 2.0 0.1", strL "2.0 3.0 0.2"] = .ok ⟨[], [], []⟩ :=
  C1_saxs_table_always_empty [strL "1.0 2.0 0.1", strL "2.0 3.0 0.2"]
    (by decide) (by decide) (by decide)

/-- C2: the code, not the claim, is at fault — `parse_bc_errors` binds
`custom_bc_errors = default_bc_errors` without a copy, so on the one-line
override file `pre 123.456` the process-wide default table after the call
(which aliasing makes equal to the returned mapping) differs from its
original contents: the shared default has been mutated in place. -/
theorem C2_merger_mutates_shared_default :
    sharedDefaultAfter default_bc_errors [strL "pre 123.456"] ≠ default_bc_errors ∧
    parse_bc_errors default_bc_errors [strL "pre 123.456"] =
      .ok (sharedDefaultAfter default_bc_errors [strL "pre 123.456"]) := by decide

lemma exceptBind_ok {ε α β : Type} (a : α) (f : α → Except ε β) :
    (Except.ok a >>= f) = f a := rfl

lemma exceptBind_error {ε α β : Type} (e : ε) (f : α → Except ε β) :
    ((Except.error e : Except ε α) >>= f) = .error e := rfl

lemma csRow_index {st : CsScan} {idx : Nat} {l : Str} {r : CsRow}
    (h : csRow st idx l = .ok r) : r.index = idx := by
  unfold csRow at h
  simp only [bind, Except.bind] at h
  repeat' split at h
  any_goals exact (Except.noConfusion h)
  cases h
  rfl

lemma nmrRow_index {ty : Option Str} {st : NmrScan} {idx : Nat} {l : Str} {r : NmrRow}
    (h : nmrRow ty st idx l = .ok r) : r.index = idx := by
  unfold nmrRow at h
  simp only [bind, Except.bind] at h
  repeat' split at h
  any_goals exact (Except.noConfusion h)
  all_goals (cases h; rfl)

lemma csScan_start {ls : List Str} : ∀ {st : CsScan} {i : Nat} {sr : CsScan × Nat},
    csScan st i ls = .ok sr → sr.2 = i + (ls.takeWhile hasUnderscore).length := by
  induction ls with
  | nil => intro st i sr h; exact (Except.noConfusion h)
  | cons l rest ih =>
    intro st i sr h
    simp only [csScan] at h
    by_cases hu : hasUnderscore l = true
    · rw [if_pos hu] at h
      rw [List.takeWhile_cons_of_pos hu]
      cases hsd : splitDot l with
      | nil => rw [hsd] at h; exact (Except.noConfusion h)
      | cons a tl =>
        cases tl with
        | nil => rw [hsd] at h; exact (Except.noConfusion h)
        | cons d tl2 =>
          rw [hsd] at h
          have h2 := ih h
          simp only [List.length_cons, h2]
          omega
    · rw [if_neg hu] at h
      cases h
      rw [List.takeWhile_cons_of_neg hu]
      simp

lemma nmrScan_start {ty : Option Str} {ls : List Str} :
    ∀ {st : NmrScan} {i : Nat} {sr : NmrScan × Nat},
    nmrScan ty st i ls = .ok sr → sr.2 = i + (ls.takeWhile hasUnderscore).length := by
  induction ls with
  | nil => intro st i sr h; exact (Except.noConfusion h)
  | cons l rest ih =>
    intro st i sr h
    simp only [nmrScan] at h
    by_cases hu : hasUnderscore l = true
    · rw [if_pos hu] at h
      rw [List.takeWhile_cons_of_pos hu]
      cases hsd : splitDot l with
      | nil => rw [hsd] at h; exact (Except.noConfusion h)
      | cons a tl =>
        cases tl with
        | nil => rw [hsd] at h; exact (Except.noConfusion h)
        | cons d tl2 =>
          rw [hsd] at h
          have h2 := ih h
          simp only [List.length_cons, h2]
          omega
    · rw [if_neg hu] at h
      cases h
      rw [List.takeWhile_cons_of_neg hu]
      simp

lemma csRowsGo_index {ls : List Str} : ∀ {st : CsScan} {i : Nat} {rows : List CsRow},
    csRowsGo st i ls = .ok rows → rows.map (·.index) = List.range' i ls.length := by
  induction ls with
  | nil =>
    intro st i rows h
    simp only [csRowsGo] at h
    cases h
    rfl
  | cons l rest ih =>
    intro st i rows h
    simp only [csRowsGo, bind, Except.bind] at h
    cases h1 : csRow st i l with
    | error e => rw [h1] at h; exact (Except.noConfusion h)
    | ok r0 =>
      rw [h1] at h
      cases h2 : csRowsGo st (i + 1) rest with
      | error e => rw [h2] at h; exact (Except.noConfusion h)
      | ok rs =>
        rw [h2] at h
        cases h
        simp only [List.map_cons, List.length_cons, List.range'_succ,
          csRow_index h1, ih h2]

lemma nmrRowsGo_index {ty : Option Str} {ls : List Str} :
    ∀ {st : NmrScan} {i : Nat} {rows : List NmrRow},
    nmrRowsGo ty st i ls = .ok rows → rows.map (·.index) = List.range' i ls.length := by
  induction ls with
  | nil =>
    intro st i rows h
    simp only [nmrRowsGo] at h
    cases h
    rfl
  | cons l rest ih =>
    intro st i rows h
    simp only [nmrRowsGo, bind, Except.bind] at h
    cases h1 : nmrRow ty st i l with
    | error e => rw [h1] at h; exact (Except.noConfusion h)
    | ok r0 =>
      rw [h1] at h
      cases h2 : nmrRowsGo ty st (i + 1) rest with
      | error e => rw [h2] at h; exact (Except.noConfusion h)
      | ok rs =>
        rw [h2] at h
        cases h
        simp only [List.map_cons, List.length_cons, List.range'_succ,
          nmrRow_index h1, ih h2]

/-- C9: in `parse_cs_data` and `parse_nmrstar_data` the alignment index of
each output row is the row's zero-based line offset within the file — the
data-block start found by the header scan plus the row position — never a
value read from a column; the index column is the run of consecutive
integers starting at the number of leading header lines. -/
theorem C9_alignment_is_line_offset :
    (∀ (lines : List Str) (df : CsDF) (sr : CsScan × Nat),
       parse_cs_data lines = .ok df →
       csScan ⟨none, none, none⟩ 0 lines = .ok sr →
       df.index = List.range' sr.2 (lines.length - sr.2) ∧
       sr.2 = (lines.takeWhile hasUnderscore).length) ∧
    (∀ (lines : List Str) (ty : Option Str) (df : NmrDF) (sr : NmrScan × Nat),
       parse_nmrstar_data lines ty = .ok df →
       nmrScan ty ⟨none, none, none, none⟩ 0 lines = .ok sr →
       df.index = List.range' sr.2 (lines.length - sr.2) ∧
       sr.2 = (lines.takeWhile hasUnderscore).length) := by
  constructor
  · intro lines df sr hp hs
    cases lines with
    | nil => exact (Except.noConfusion hp)
    | cons first rest =>
      simp only [parse_cs_data] at hp
      by_cases hh : (splitComma first).headI = exp_idx
      · rw [if_pos hh] at hp; exact (Except.noConfusion hp)
      · rw [if_neg hh, hs, exceptBind_ok] at hp
        cases h2 : csRowsGo sr.1 sr.2 ((first :: rest).drop sr.2) with
        | error e => rw [h2] at hp; exact (Except.noConfusion hp)
        | ok rows =>
          rw [h2, exceptBind_ok] at hp
          cases hp
          have h0 := csScan_start hs
          refine ⟨?_, by omega⟩
          have h3 := csRowsGo_index h2
          simpa [List.length_drop] using h3
  · intro lines ty df sr hp hs
    cases lines with
    | nil => exact (Except.noConfusion hp)
    | cons first rest =>
      simp only [parse_nmrstar_data] at hp
      by_cases hh : (splitComma first).headI = exp_idx
      · rw [if_pos hh] at hp; exact (Except.noConfusion hp)
      · rw [if_neg hh, hs, exceptBind_ok] at hp
        cases h2 : nmrRowsGo ty sr.1 sr.2 ((first :: rest).drop sr.2) with
        | error e => rw [h2] at hp; exact (Except.noConfusion hp)
        | ok rows =>
          rw [h2, exceptBind_ok] at hp
          have h0 := nmrScan_start hs
          have h3 := nmrRowsGo_index h2
          cases hb : isBoundsType ty with
          | true =>
            rw [hb] at hp
            simp only [if_pos rfl] at hp
            cases hp
            exact ⟨by simpa [List.length_drop] using h3, by omega⟩
          | false =>
            rw [hb] at hp
            simp only [Bool.false_eq_true, if_false] at hp
            cases hp
            exact ⟨by simpa [List.length_drop] using h3, by omega⟩

/-- C9 witness: on a four-line chemical-shift file with three header lines,
the indices are the consecutive offsets starting at 3. -/
theorem C9_alignment_is_line_offset_witness :
    ([3] : List Nat) = List.range' 3 (4 - 3) ∧
    (3 : Nat) = ([strL "_Atom_chem_shift.Atom_ID", strL "_Atom_chem_shift.Val",
      strL "_Atom_chem_shift.Val_err", strL "CA 176.3 0.1"].takeWhile hasUnderscore).length := by
  have h := C9_alignment_is_line_offset.1
    [strL "_Atom_chem_shift.Atom_ID", strL "_Atom_chem_shift.Val",
     strL "_Atom_chem_shift.Val_err", strL "CA 176.3 0.1"]
    ⟨[3], [strL "CA"], [⟨1763, -1⟩], [⟨1, -1⟩]⟩
    (⟨some 1, some 2, some 0⟩, 3)
    (by decide) (by decide)
  simpa using h

lemma pyVar_ok {v : Option Nat} {k : Nat} (h : pyVar v = .ok k) : v = some k := by
  cases v with
  | none => exact (Except.noConfusion h)
  | some j => cases h; rfl

lemma pyIndex_ok {α : Type} {l : List α} {k : Nat} {x : α} (h : pyIndex l k = .ok x) :
    l.get? k = some x := by
  unfold pyIndex at h
  cases hg : l.get? k with
  | none => rw [hg] at h; exact (Except.noConfusion h)
  | some y => rw [hg] at h; cases h; rfl

lemma pyfloatE_ok {t : Str} {v : PyFloat} (h : pyfloatE t = .ok v) : pyfloat? t = some v := by
  unfold pyfloatE at h
  cases hg : pyfloat? t with
  | none => rw [hg] at h; exact (Except.noConfusion h)
  | some w => rw [hg] at h; cases h; rfl

lemma nmrRow_bounds {ty : Option Str} {st : NmrScan} {idx : Nat} {l : Str} {r : NmrRow}
    (hb : isBoundsType ty = true) {mi ni : Nat}
    (hmi : st.maxIdx = some mi) (hni : st.minIdx = some ni)
    (h : nmrRow ty st idx l = .ok r) :
    ∃ mx mn up lo, r.bounds = some (up, lo) ∧
      (pysplit l).get? mi = some mx ∧ (pysplit l).get? ni = some mn ∧
      (mx = strL "." → up = pyZero) ∧ (mx ≠ strL "." → pyfloat? mx = some up) ∧
      (mn = strL "." → lo = pyZero) ∧ (mn ≠ strL "." → pyfloat? mn = some lo) := by
  unfold nmrRow at h
  cases hA : pyVar st.dataIdx with
  | error e0 => rw [hA] at h; simp only [exceptBind_error] at h; exact (Except.noConfusion h)
  | ok di =>
  rw [hA] at h; simp only [exceptBind_ok] at h
  cases hB : pyIndex (pysplit l) di with
  | error e0 => rw [hB] at h; simp only [exceptBind_error] at h; exact (Except.noConfusion h)
  | ok vt =>
  rw [hB] at h; simp only [exceptBind_ok] at h
  cases hC : pyfloatE vt with
  | error e0 => rw [hC] at h; simp only [exceptBind_error] at h; exact (Except.noConfusion h)
  | ok v =>
  rw [hC] at h; simp only [exceptBind_ok] at h
  cases hD : pyVar st.errorIdx with
  | error e0 => rw [hD] at h; simp only [exceptBind_error] at h; exact (Except.noConfusion h)
  | ok ei =>
  rw [hD] at h; simp only [exceptBind_ok] at h
  cases hE : pyIndex (pysplit l) ei with
  | error e0 => rw [hE] at h; simp only [exceptBind_error] at h; exact (Except.noConfusion h)
  | ok et =>
  rw [hE] at h; simp only [exceptBind_ok] at h
  cases hF : pyfloatE et with
  | error e0 => rw [hF] at h; simp only [exceptBind_error] at h; exact (Except.noConfusion h)
  | ok e =>
  rw [hF] at h; simp only [exceptBind_ok] at h
  rw [if_pos hb] at h
  cases hG : pyVar st.maxIdx with
  | error e0 => rw [hG] at h; simp only [exceptBind_error] at h; exact (Except.noConfusion h)
  | ok mig =>
  rw [hG] at h; simp only [exceptBind_ok] at h
  have hmig : mig = mi := by
    have h0 := pyVar_ok hG; rw [hmi] at h0; exact (Option.some_inj.mp h0).symm
  subst hmig
  cases hH : pyIndex (pysplit l) mig with
  | error e0 => rw [hH] at h; simp only [exceptBind_error] at h; exact (Except.noConfusion h)
  | ok mx =>
  rw [hH] at h; simp only [exceptBind_ok] at h
  cases hI : pyVar st.minIdx with
  | error e0 => rw [hI] at h; simp only [exceptBind_error] at h; exact (Except.noConfusion h)
  | ok nig =>
  rw [hI] at h; simp only [exceptBind_ok] at h
  have hnig : nig = ni := by
    have h0 := pyVar_ok hI; rw [hni] at h0; exact (Option.some_inj.mp h0).symm
  subst hnig
  cases hJ : pyIndex (pysplit l) nig with
  | error e0 => rw [hJ] at h; simp only [exceptBind_error] at h; exact (Except.noConfusion h)
  | ok mn =>
  rw [hJ] at h; simp only [exceptBind_ok] at h
  by_cases hmx : mx = strL "."
  · rw [if_pos hmx] at h
    by_cases hmn : mn = strL "."
    · rw [if_pos hmn] at h
      cases h
      exact ⟨mx, mn, pyZero, pyZero, rfl, pyIndex_ok hH, pyIndex_ok hJ,
        fun _ => rfl, fun hc => absurd hmx hc, fun _ => rfl, fun hc => absurd hmn hc⟩
    · rw [if_neg hmn] at h
      cases hL : pyfloatE mn with
      | error e0 => rw [hL] at h; exact (Except.noConfusion h)
      | ok lo =>
        rw [hL] at h
        cases h
        exact ⟨mx, mn, pyZero, lo, rfl, pyIndex_ok hH, pyIndex_ok hJ,
          fun _ => rfl, fun hc => absurd hmx hc,
          fun hc => absurd hc hmn, fun _ => pyfloatE_ok hL⟩
  · rw [if_neg hmx] at h
    cases hK : pyfloatE mx with
    | error e0 => rw [hK] at h; exact (Except.noConfusion h)
    | ok up =>
    rw [hK] at h
    simp only [exceptBind_ok] at h
    by_cases hmn : mn = strL "."
    · rw [if_pos hmn] at h
      cases h
      exact ⟨mx, mn, up, pyZero, rfl, pyIndex_ok hH, pyIndex_ok hJ,
        fun hc => absurd hc hmx, fun _ => pyfloatE_ok hK, fun _ => rfl,
        fun hc => absurd hmn hc⟩
    · rw [if_neg hmn] at h
      cases hL : pyfloatE mn with
      | error e0 => rw [hL] at h; exact (Except.noConfusion h)
      | ok lo =>
        rw [hL] at h
        cases h
        exact ⟨mx, mn, up, lo, rfl, pyIndex_ok hH, pyIndex_ok hJ,
          fun hc => absurd hc hmx, fun _ => pyfloatE_ok hK,
          fun hc => absurd hc hmn, fun _ => pyfloatE_ok hL⟩

lemma nmrRowsGo_bounds {ty : Option Str} {st : NmrScan} (hb : isBoundsType ty = true)
    {mi ni : Nat} (hmi : st.maxIdx = some mi) (hni : st.minIdx = some ni)
    {ls : List Str} :
    ∀ {i : Nat} {rows : List NmrRow}, nmrRowsGo ty st i ls = .ok rows →
    ∀ j, j < rows.length → ∃ l mx mn up lo,
      ls.get? j = some l ∧
      (rows.get? j).map (·.bounds) = some (some (up, lo)) ∧
      (pysplit l).get? mi = some mx ∧ (pysplit l).get? ni = some mn ∧
      (mx = strL "." → up = pyZero) ∧ (mx ≠ strL "." → pyfloat? mx = some up) ∧
      (mn = strL "." → lo = pyZero) ∧ (mn ≠ strL "." → pyfloat? mn = some lo) := by
  induction ls with
  | nil =>
    intro i rows h j hj
    simp only [nmrRowsGo] at h
    cases h
    exact absurd hj (by simp)
  | cons l rest ih =>
    intro i rows h j hj
    simp only [nmrRowsGo, bind, Except.bind] at h
    cases h1 : nmrRow ty st i l with
    | error e => rw [h1] at h; exact (Except.noConfusion h)
    | ok r0 =>
      rw [h1] at h
      cases h2 : nmrRowsGo ty st (i + 1) rest with
      | error e => rw [h2] at h; exact (Except.noConfusion h)
      | ok rs =>
        rw [h2] at h
        cases h
        cases j with
        | zero =>
          obtain ⟨mx, mn, up, lo, hbd, hgx, hgn, p1, p2, p3, p4⟩ :=
            nmrRow_bounds hb hmi hni h1
          exact ⟨l, mx, mn, up, lo, rfl, by simp [hbd], hgx, hgn, p1, p2, p3, p4⟩
        | succ j =>
          obtain ⟨l2, mx, mn, up, lo, hgl, hbd, hgx, hgn, p1, p2, p3, p4⟩ :=
            ih h2 j (by simpa using hj)
          exact ⟨l2, mx, mn, up, lo, by simpa using hgl, by simpa using hbd,
            hgx, hgn, p1, p2, p3, p4⟩

/-- C6: for a well-formed NOE or PRE stripped-dialect file,
`parse_nmrstar_data` maps a bound token equal to the placeholder `.` to the
float `0.0` in the upper/lower column, and converts every other bound token
to its numeric value. -/
theorem C6_bound_placeholder_zero (lines : List Str) (ty : Option Str)
    (hty : ty = some noe_name ∨ ty = some pre_name)
    (df : NmrDF) (hp : parse_nmrstar_data lines ty = .ok df)
    (sr : NmrScan × Nat) (hs : nmrScan ty ⟨none, none, none, none⟩ 0 lines = .ok sr)
    (mi ni : Nat) (hmi : sr.1.maxIdx = some mi) (hni : sr.1.minIdx = some ni)
    (i : Nat) (hiu : i < df.upper.length) (hil : i < df.lower.length) :
    ∃ l mx mn, lines.get? (sr.2 + i) = some l ∧
      (pysplit l).get? mi = some mx ∧ (pysplit l).get? ni = some mn ∧
      (mx = strL "." → df.upper.get ⟨i, hiu⟩ = pyZero) ∧
      (mx ≠ strL "." → pyfloat? mx = some (df.upper.get ⟨i, hiu⟩)) ∧
      (mn = strL "." → df.lower.get ⟨i, hil⟩ = pyZero) ∧
      (mn ≠ strL "." → pyfloat? mn = some (df.lower.get ⟨i, hil⟩)) := by
  have hb : isBoundsType ty = true := by
    rcases hty with h | h <;> simp [isBoundsType, h]
  cases lines with
  | nil => exact (Except.noConfusion hp)
  | cons first rest =>
    simp only [parse_nmrstar_data] at hp
    by_cases hh : (splitComma first).headI = exp_idx
    · rw [if_pos hh] at hp; exact (Except.noConfusion hp)
    · rw [if_neg hh, hs, exceptBind_ok] at hp
      cases h2 : nmrRowsGo ty sr.1 sr.2 ((first :: rest).drop sr.2) with
      | error e => rw [h2] at hp; exact (Except.noConfusion hp)
      | ok rows =>
        rw [h2, exceptBind_ok, if_pos hb] at hp
        cases hp
        have hlen : i < rows.length := by simpa using hiu
        obtain ⟨l, mx, mn, up, lo, hgl, hbd, hgx, hgn, p1, p2, p3, p4⟩ :=
          nmrRowsGo_bounds hb hmi hni h2 i hlen
        have hrb : rows[i].bounds = some (up, lo) := by
          rw [List.get?_eq_getElem?, List.getElem?_eq_getElem hlen] at hbd
          simpa using hbd
        have hu : (rows.map (fun r => (r.bounds.getD (pyZero, pyZero)).1)).get ⟨i, hiu⟩ = up := by
          simp only [List.get_eq_getElem, List.getElem_map, hrb, Option.getD_some]
        have hlo : (rows.map (fun r => (r.bounds.getD (pyZero, pyZero)).2)).get ⟨i, hil⟩ = lo := by
          simp only [List.get_eq_getElem, List.getElem_map, hrb, Option.getD_some]
        refine ⟨l, mx, mn, ?_, hgx, hgn, ?_, ?_, ?_, ?_⟩
        · rw [← hgl]
          simp [List.get?_eq_getElem?, List.getElem?_drop]
        · intro hc; rw [hu]; exact p1 hc
        · intro hc; rw [hu]; exact p2 hc
        · intro hc; rw [hlo]; exact p3 hc
        · intro hc; rw [hlo]; exact p4 hc

/-- C6 witness: on a five-line NOE file whose bound tokens are `.` and
`0.1`, the upper bound is normalized to `0.0` and the lower bound to the
numeric value of its token. -/
theorem C6_bound_placeholder_zero_witness :
    ∃ l mx mn,
      ([strL "_a.Val", strL "_a.Val_err", strL "_a.Val_max", strL "_a.Val_min",
        strL "1.5 0.2 . 0.1"].get? (4 + 0)) = some l ∧
      (pysplit l).get? 2 = some mx ∧ (pysplit l).get? 3 = some mn ∧
      (mx = strL "." → (⟨0, 0⟩ : PyFloat) = pyZero) ∧
      (mx ≠ strL "." → pyfloat? mx = some ⟨0, 0⟩) ∧
      (mn = strL "." → (⟨1, -1⟩ : PyFloat) = pyZero) ∧
      (mn ≠ strL "." → pyfloat? mn = some ⟨1, -1⟩) :=
  C6_bound_placeholder_zero
    [strL "_a.Val", strL "_a.Val_err", strL "_a.Val_max", strL "_a.Val_min",
     strL "1.5 0.2 . 0.1"]
    (some noe_name) (Or.inl rfl)
    ⟨[4], [⟨15, -1⟩], [⟨0, 0⟩], [⟨1, -1⟩], [⟨2, -1⟩], true⟩ (by decide)
    (⟨some 0, some 1, some 2, some 3⟩, 4) (by decide)
    2 3 rfl rfl 0 (by decide) (by decide)

lemma exceptMap_ok {ε α β : Type} {f : α → β} {x : Except ε α} {y : β}
    (h : x.map f = .ok y) : ∃ a, x = .ok a ∧ y = f a := by
  cases x with
  | error e => exact (Except.noConfusion h)
  | ok a => cases h; exact ⟨a, rfl, rfl⟩

lemma dictSet_mem {α : Type} {d : List (Str × α)} {k : Str} {v : α}
    {Q : Str × α → Prop} (hd : ∀ x ∈ d, Q x) (hkv : Q (k, v)) :
    ∀ x ∈ dictSet d k v, Q x := by
  intro x hx
  unfold dictSet at hx
  split at hx
  · obtain ⟨e, he, hex⟩ := List.mem_map.mp hx
    by_cases hek : e.1 = k
    · rw [if_pos hek] at hex; rw [← hex]; exact hkv
    · rw [if_neg hek] at hex; rw [← hex]; exact hd e he
  · rcases List.mem_append.mp hx with h1 | h1
    · exact hd x h1
    · rw [List.mem_singleton.mp h1]; exact hkv

lemma expTryBody_appended {fs : Str → List Str} {module fpath : Str} {data : Table}
    {s0 : Stack} (h : expTryBody fs module fpath data = .ok (.appended s0)) :
    s0.name = module ∧ s0.sigma = none ∧ s0.mu = none := by
  unfold expTryBody at h
  repeat' split at h
  all_goals
    first
    | ((cases h) <;> exact ⟨rfl, rfl, rfl⟩)
    | (obtain ⟨d, hx, hy⟩ := exceptMap_ok h;
       first
       | exact (ExpStep.noConfusion hy)
       | ((cases hy) <;> exact ⟨rfl, rfl, rfl⟩))

lemma expModule_ok_fields {fs : Str → List Str} {data : Table} {module fpath : Str}
    {t : Table} {s : Stack} (h : expModule fs data module fpath = .ok (t, s)) :
    s.name = module ∧ s.sigma = none ∧ s.mu = none := by
  unfold expModule at h
  cases hx : expTryBody fs module fpath data with
  | ok v =>
    rw [hx] at h
    cases v with
    | newData t0 => cases h; exact ⟨rfl, rfl, rfl⟩
    | appended s1 => cases h; exact expTryBody_appended hx
  | error e =>
    rw [hx] at h
    cases e with
    | typeError =>
      cases hc : readCsv (fs fpath) with
      | ok df => rw [hc] at h; cases h; exact ⟨rfl, rfl, rfl⟩
      | error e2 => rw [hc] at h; exact (Except.noConfusion h)
    | indexError => exact (Except.noConfusion h)
    | keyError => exact (Except.noConfusion h)
    | nameError => exact (Except.noConfusion h)
    | valueError => exact (Except.noConfusion h)
    | parserError => exact (Except.noConfusion h)
    | emptyDataError => exact (Except.noConfusion h)

lemma expFold_invariant {fs : Str → List Str} (Q : Str × Stack → Prop)
    (hQ : ∀ data module fpath t s,
      expModule fs data module fpath = .ok (t, s) → Q (module, s)) :
    ∀ {fns : List (Str × Str)} {parsed : List (Str × Stack)} {data : Table}
      {res : List (Str × Stack) × Table},
    expFold fs parsed data fns = .ok res → (∀ x ∈ parsed, Q x) → ∀ x ∈ res.1, Q x := by
  intro fns
  induction fns with
  | nil =>
    intro parsed data res h hp x hx
    simp only [expFold] at h
    cases h
    exact hp x hx
  | cons mf rest ih =>
    intro parsed data res h hp x hx
    obtain ⟨module, fpath⟩ := mf
    simp only [expFold] at h
    cases hm : expModule fs data module fpath with
    | error e =>
      rw [hm] at h; simp only [exceptBind_error] at h; exact (Except.noConfusion h)
    | ok r =>
      rw [hm] at h; simp only [exceptBind_ok] at h
      obtain ⟨t, s⟩ := r
      exact ih h (dictSet_mem hp (hQ _ _ _ _ _ hm)) x hx

lemma bcLoadTail_ok {raw : JObj} {module : Str} {bc : BcErrors} {s : Stack}
    (h : bcLoadTail raw module bc = .ok s) :
    s.name = module ∧ s.sigma = dictGet? bc module ∧
    s.mu = (if module = jc_name then some jc_bc_mu else none) := by
  unfold bcLoadTail at h
  cases hD : bcReshape raw with
  | error e => rw [hD] at h; simp only [exceptBind_error] at h; exact (Except.noConfusion h)
  | ok data =>
  rw [hD] at h; simp only [exceptBind_ok] at h
  cases hS : dictGet? bc module with
  | none => rw [hS] at h; simp only [exceptBind_error] at h; exact (Except.noConfusion h)
  | some v =>
  rw [hS] at h; simp only [exceptBind_ok] at h
  by_cases hjc : module = jc_name
  · rw [if_pos hjc] at h; cases h; exact ⟨rfl, rfl, by rw [if_pos hjc]⟩
  · rw [if_neg hjc] at h; cases h; exact ⟨rfl, rfl, by rw [if_neg hjc]⟩

lemma bcLoadModule_ok {raw? : Except PyErr JObj} {module : Str} {bc : BcErrors} {s : Stack}
    (h : bcLoadModule raw? module bc = .ok s) :
    s.name = module ∧ s.sigma = dictGet? bc module ∧
    s.mu = (if module = jc_name then some jc_bc_mu else none) := by
  unfold bcLoadModule at h
  cases hA : raw? with
  | error e => rw [hA] at h; exact (Except.noConfusion h)
  | ok raw0 =>
  rw [hA] at h; simp only [exceptBind_ok] at h
  split at h
  · cases hB : dictDel raw0 (strL "format") with
    | error e =>
      rw [hB] at h; simp only [exceptBind_error] at h; exact (Except.noConfusion h)
    | ok raw =>
      rw [hB] at h; simp only [exceptBind_ok] at h
      exact bcLoadTail_ok h
  · exact bcLoadTail_ok h

lemma bcFold_invariant {jfs : Str → Except PyErr JObj} {bc : BcErrors}
    (Q : Str × Stack → Prop)
    (hQ : ∀ module fpath s, bcLoadModule (jfs fpath) module bc = .ok s → Q (module, s)) :
    ∀ {fns : List (Str × Str)} {parsed : List (Str × Stack)} {errs : List PyErr},
    (∀ x ∈ parsed, Q x) → ∀ x ∈ (bcFold jfs bc parsed errs fns).1, Q x := by
  intro fns
  induction fns with
  | nil =>
    intro parsed errs hp x hx
    simp only [bcFold] at hx
    exact hp x hx
  | cons mf rest ih =>
    intro parsed errs hp x hx
    obtain ⟨module, fpath⟩ := mf
    simp only [bcFold] at hx
    cases hm : bcLoadModule (jfs fpath) module bc with
    | ok s => rw [hm] at hx; exact ih (dictSet_mem hp (hQ _ _ _ hm)) x hx
    | error e => rw [hm] at hx; exact ih hp x hx

/-- C5: every container the back-calculated branch stores carries sigma
equal to the uncertainty table's entry for its modality and mu equal to the
fixed J-coupling constant exactly for the J-coupling modality; every
container the experimental branch stores carries sigma `None` and mu
`None`. -/
theorem C5_sigma_mu_attachment :
    (∀ (fs : Str → List Str) (jfs : Str → Except PyErr JObj)
       (filenames : List (Str × Str)) (bc : BcErrors)
       (parsed : List (Str × Stack)) (errs : List PyErr) (module : Str) (s : Stack),
       parse_data fs jfs filenames parse_mode_back bc = .ok (parsed, errs) →
       (module, s) ∈ parsed →
       s.sigma = dictGet? bc module ∧
       s.mu = (if module = jc_name then some jc_bc_mu else none)) ∧
    (∀ (fs : Str → List Str) (jfs : Str → Except PyErr JObj)
       (filenames : List (Str × Str)) (bc : BcErrors)
       (parsed : List (Str × Stack)) (errs : List PyErr) (module : Str) (s : Stack),
       parse_data fs jfs filenames parse_mode_exp bc = .ok (parsed, errs) →
       (module, s) ∈ parsed → s.sigma = none ∧ s.mu = none) := by
  constructor
  · intro fs jfs filenames bc parsed errs module s hp hmem
    unfold parse_data at hp
    rw [if_neg (by decide)] at hp
    have hp2 : bcFold jfs bc [] [] filenames = (parsed, errs) := Except.ok.inj hp
    have h1 : (module, s) ∈ (bcFold jfs bc [] [] filenames).1 := by
      rw [hp2]; exact hmem
    exact bcFold_invariant
      (fun x => x.2.sigma = dictGet? bc x.1 ∧
        x.2.mu = (if x.1 = jc_name then some jc_bc_mu else none))
      (fun module fpath s h => ⟨(bcLoadModule_ok h).2.1, (bcLoadModule_ok h).2.2⟩)
      (by intro x hx; cases hx) (module, s) h1
  · intro fs jfs filenames bc parsed errs module s hp hmem
    unfold parse_data at hp
    rw [if_pos rfl] at hp
    cases he : expFold fs [] Table.emptyFloat filenames with
    | error e => rw [he] at hp; exact (Except.noConfusion hp)
    | ok res =>
      rw [he] at hp
      simp only [Except.map] at hp
      cases hp
      have hinv := expFold_invariant
        (fun x => x.2.sigma = none ∧ x.2.mu = none)
        (fun data module fpath t s h =>
          ⟨(expModule_ok_fields h).2.1, (expModule_ok_fields h).2.2⟩)
        he (by intro x hx; cases hx)
      exact hinv (module, s) hmem

/-- C5 witness: a one-modality back-calculated run for J-coupling yields
sigma from the uncertainty table and the fixed mu; a one-modality
experimental run yields sigma and mu `None`. -/
theorem C5_sigma_mu_attachment_witness :
    ((⟨jc_name, .bc (.scalarT [(strL "r1", .jnum ⟨1, 0⟩ true)]),
        some (.num ⟨73, -2⟩), some jc_bc_mu⟩ : Stack).sigma =
        dictGet? default_bc_errors jc_name ∧
     (⟨jc_name, .bc (.scalarT [(strL "r1", .jnum ⟨1, 0⟩ true)]),
        some (.num ⟨73, -2⟩), some jc_bc_mu⟩ : Stack).mu =
        (if jc_name = jc_name then some jc_bc_mu else none)) ∧
    ((⟨saxs_name, .saxs ⟨[], [], []⟩, none, none⟩ : Stack).sigma = none ∧
     (⟨saxs_name, .saxs ⟨[], [], []⟩, none, none⟩ : Stack).mu = none) :=
  ⟨C5_sigma_mu_attachment.1 (fun _ => []) (fun _ => .ok [(strL "r1", .jnum ⟨1, 0⟩ true)])
      [(jc_name, strL "p")] default_bc_errors
      [(jc_name, ⟨jc_name, .bc (.scalarT [(strL "r1", .jnum ⟨1, 0⟩ true)]),
        some (.num ⟨73, -2⟩), some jc_bc_mu⟩)] [] jc_name _ (by decide) (by decide),
   C5_sigma_mu_attachment.2 (fun _ => [strL "1.0 2.0 0.1"]) (fun _ => .error .keyError)
      [(saxs_name, strL "p")] default_bc_errors
      [(saxs_name, ⟨saxs_name, .saxs ⟨[], [], []⟩, none, none⟩)] [] saxs_name _
      (by decide) (by decide)⟩

lemma bcFold_eq (jfs : Str → Except PyErr JObj) (bc : BcErrors) :
    ∀ (fns : List (Str × Str)) (parsed : List (Str × Stack)) (errs : List PyErr),
    (∀ mf ∈ fns, ∀ x ∈ parsed, x.1 ≠ mf.1) →
    (fns.map Prod.fst).Nodup →
    bcFold jfs bc parsed errs fns =
      (parsed ++ fns.filterMap (fun mf =>
         match bcLoadModule (jfs mf.2) mf.1 bc with
         | .ok s => some (mf.1, s)
         | .error _ => none),
       errs ++ fns.filterMap (fun mf =>
         match bcLoadModule (jfs mf.2) mf.1 bc with
         | .ok _ => none
         | .error e => some e)) := by
  intro fns
  induction fns with
  | nil => intro parsed errs hdisj hnd; simp [bcFold]
  | cons mf rest ih =>
    intro parsed errs hdisj hnd
    obtain ⟨module, fpath⟩ := mf
    have hnodup : ¬ module ∈ rest.map Prod.fst := by
      simp only [List.map_cons, List.nodup_cons] at hnd
      exact hnd.1
    have hndrest : (rest.map Prod.fst).Nodup := by
      simp only [List.map_cons, List.nodup_cons] at hnd
      exact hnd.2
    cases hm : bcLoadModule (jfs fpath) module bc with
    | ok s =>
      have hnotin : ¬ ((parsed.any fun e => e.1 = module) = true) := by
        simp only [List.any_eq_true, decide_eq_true_eq, not_exists, not_and]
        intro x hx
        exact hdisj (module, fpath) (by simp) x hx
      have hset : dictSet parsed module s = parsed ++ [(module, s)] := by
        unfold dictSet
        rw [if_neg hnotin]
      have hdisj2 : ∀ mf ∈ rest, ∀ x ∈ parsed ++ [(module, s)], x.1 ≠ mf.1 := by
        intro mf2 hmf2 x hx
        rcases List.mem_append.mp hx with h1 | h1
        · exact hdisj mf2 (by simp [hmf2]) x h1
        · rw [List.mem_singleton.mp h1]
          intro hcon
          apply hnodup
          have hcon2 : module = mf2.1 := hcon
          rw [hcon2]
          exact List.mem_map_of_mem Prod.fst hmf2
      simp only [bcFold, hm]
      rw [hset, ih _ _ hdisj2 hndrest]
      simp only [List.filterMap_cons, hm, List.append_assoc, List.singleton_append]
    | error e =>
      have hdisj2 : ∀ mf ∈ rest, ∀ x ∈ parsed, x.1 ≠ mf.1 := by
        intro mf2 hmf2 x hx
        exact hdisj mf2 (by simp [hmf2]) x hx
      simp only [bcFold, hm]
      rw [ih _ _ hdisj2 hndrest]
      simp only [List.filterMap_cons, hm, List.append_assoc, List.singleton_append]

/-- C4: in back-calculated mode, every per-modality load failure is caught
and appended to the error log, `parse_data` itself never fails, the failed
modality is absent from the returned mapping, and the result is exactly the
per-modality successes and failures of the input list, in order. -/
theorem C4_bc_errors_isolated (fs : Str → List Str) (jfs : Str → Except PyErr JObj)
    (filenames : List (Str × Str)) (mode : Str) (bc : BcErrors)
    (hmode : ¬ mode = parse_mode_exp) (hnd : (filenames.map Prod.fst).Nodup) :
    ∃ parsed errlogs,
      parse_data fs jfs filenames mode bc = .ok (parsed, errlogs) ∧
      parsed = filenames.filterMap (fun mf =>
        match bcLoadModule (jfs mf.2) mf.1 bc with
        | .ok s => some (mf.1, s)
        | .error _ => none) ∧
      errlogs = filenames.filterMap (fun mf =>
        match bcLoadModule (jfs mf.2) mf.1 bc with
        | .ok _ => none
        | .error e => some e) ∧
      ∀ mf ∈ filenames, ∀ e, bcLoadModule (jfs mf.2) mf.1 bc = .error e →
        e ∈ errlogs ∧ ∀ s, ¬ (mf.1, s) ∈ parsed := by
  have heq := bcFold_eq jfs bc filenames [] []
    (by intro mf hmf x hx; cases hx) hnd
  refine ⟨filenames.filterMap (fun mf =>
      match bcLoadModule (jfs mf.2) mf.1 bc with
      | .ok s => some (mf.1, s)
      | .error _ => none),
    filenames.filterMap (fun mf =>
      match bcLoadModule (jfs mf.2) mf.1 bc with
      | .ok _ => none
      | .error e => some e), ?_, rfl, rfl, ?_⟩
  · unfold parse_data
    rw [if_neg hmode, heq]
    simp
  · intro mf hmf e herr
    constructor
    · exact List.mem_filterMap.mpr ⟨mf, hmf, by rw [herr]⟩
    · intro s hs
      obtain ⟨mf2, hmf2, hmatch⟩ := List.mem_filterMap.mp hs
      cases hm2 : bcLoadModule (jfs mf2.2) mf2.1 bc with
      | error e2 => rw [hm2] at hmatch; exact (Option.noConfusion hmatch)
      | ok s2 =>
        rw [hm2] at hmatch
        have hmatch2 : some (mf2.1, s2) = some (mf.1, s) := hmatch
        have hpair : (mf2.1, s2) = (mf.1, s) := Option.some_inj.mp hmatch2
        have hk : mf2.1 = mf.1 := by
          have h12 := congrArg Prod.fst hpair
          simpa using h12
        have hmm : mf2 = mf := List.inj_on_of_nodup_map hnd hmf2 hmf hk
        rw [hmm] at hm2
        rw [hm2] at herr
        exact (Except.noConfusion herr)

/-- C4 witness: a malformed NOE object (no `format` key) is logged while
the J-coupling modality still parses. -/
theorem C4_bc_errors_isolated_witness :
    ∃ parsed errlogs,
      parse_data (fun _ => []) (fun p => if p = strL "p1" then .ok [] else
          .ok [(strL "r1", .jnum ⟨1, 0⟩ true)])
        [(noe_name, strL "p1"), (jc_name, strL "p2")] parse_mode_back
        default_bc_errors = .ok (parsed, errlogs) ∧
      parsed = [(noe_name, strL "p1"), (jc_name, strL "p2")].filterMap (fun mf =>
        match bcLoadModule (if mf.2 = strL "p1" then .ok [] else
            .ok [(strL "r1", .jnum ⟨1, 0⟩ true)]) mf.1 default_bc_errors with
        | .ok s => some (mf.1, s)
        | .error _ => none) ∧
      errlogs = [(noe_name, strL "p1"), (jc_name, strL "p2")].filterMap (fun mf =>
        match bcLoadModule (if mf.2 = strL "p1" then .ok [] else
            .ok [(strL "r1", .jnum ⟨1, 0⟩ true)]) mf.1 default_bc_errors with
        | .ok _ => none
        | .error e => some e) ∧
      ∀ mf ∈ [(noe_name, strL "p1"), (jc_name, strL "p2")], ∀ e,
        bcLoadModule (if mf.2 = strL "p1" then .ok [] else
            .ok [(strL "r1", .jnum ⟨1, 0⟩ true)]) mf.1 default_bc_errors = .error e →
        e ∈ errlogs ∧ ∀ s, ¬ (mf.1, s) ∈ parsed :=
  C4_bc_errors_isolated (fun _ => [])
    (fun p => if p = strL "p1" then .ok [] else .ok [(strL "r1", .jnum ⟨1, 0⟩ true)])
    [(noe_name, strL "p1"), (jc_name, strL "p2")] parse_mode_back default_bc_errors
    (by decide) (by decide)

lemma dictSet_append {α : Type} {d : List (Str × α)} {k : Str} {v : α}
    (h : ∀ x ∈ d, ¬ x.1 = k) : dictSet d k v = d ++ [(k, v)] := by
  have hno : ¬ ((d.any fun e => e.1 = k) = true) := by
    simp only [List.any_eq_true, decide_eq_true_eq, not_exists, not_and]
    exact h
  unfold dictSet
  rw [if_neg hno]

/-- C8: given a filenames mapping holding exactly the scattering and
chemical-shift modalities, each pointing at a file its stripped-dialect
parser accepts, experimental-mode `parse_data` returns containers for
exactly those two modalities and an empty error log. -/
theorem C8_two_modalities_exact (fs : Str → List Str) (jfs : Str → Except PyErr JObj)
    (p1 p2 : Str) (bc : BcErrors) (d1 : SaxsDF) (d2 : CsDF)
    (h1 : parse_saxs_data (fs p1) = .ok d1)
    (h2 : parse_cs_data (fs p2) = .ok d2) :
    parse_data fs jfs [(saxs_name, p1), (cs_name, p2)] parse_mode_exp bc =
      .ok ([(saxs_name, ⟨saxs_name, .saxs d1, none, none⟩),
            (cs_name, ⟨cs_name, .cs d2, none, none⟩)], []) := by
  unfold parse_data
  rw [if_pos rfl]
  have e1 : expModule fs Table.emptyFloat saxs_name p1 =
      .ok (.saxs d1, ⟨saxs_name, .saxs d1, none, none⟩) := by
    unfold expModule expTryBody
    rw [if_pos rfl, h1]
    rfl
  have e2 : expModule fs (.saxs d1) cs_name p2 =
      .ok (.cs d2, ⟨cs_name, .cs d2, none, none⟩) := by
    unfold expModule expTryBody
    rw [if_neg (by decide), if_pos rfl, h2]
    rfl
  have hcs : ∀ x ∈ [(saxs_name, (⟨saxs_name, .saxs d1, none, none⟩ : Stack))],
      ¬ x.1 = cs_name := by
    intro x hx
    rw [List.mem_singleton.mp hx]
    intro hc
    have hc2 : saxs_name = cs_name := hc
    exact absurd hc2 (by decide)
  simp only [expFold, e1, exceptBind_ok, e2]
  rw [dictSet_append (fun x hx => absurd hx (List.not_mem_nil x))]
  simp only [List.nil_append]
  rw [dictSet_append hcs]
  rfl

/-- C8 witness: a scattering file and a chemical-shift file parse into a
mapping with exactly those two containers and an empty error log. -/
theorem C8_two_modalities_exact_witness :
    parse_data
      (fun p => if p = strL "f1" then [strL "1.0 2.0 0.1"] else
        [strL "_Atom_chem_shift.Atom_ID", strL "_Atom_chem_shift.Val",
         strL "_Atom_chem_shift.Val_err", strL "CA 176.3 0.1"])
      (fun _ => .error .keyError) [(saxs_name, strL "f1"), (cs_name, strL "f2")]
      parse_mode_exp default_bc_errors =
    .ok ([(saxs_name, ⟨saxs_name, .saxs ⟨[], [], []⟩, none, none⟩),
          (cs_name, ⟨cs_name,
            .cs ⟨[3], [strL "CA"], [⟨1763, -1⟩], [⟨1, -1⟩]⟩, none, none⟩)], []) :=
  C8_two_modalities_exact
    (fun p => if p = strL "f1" then [strL "1.0 2.0 0.1"] else
      [strL "_Atom_chem_shift.Atom_ID", strL "_Atom_chem_shift.Val",
       strL "_Atom_chem_shift.Val_err", strL "CA 176.3 0.1"])
    (fun _ => .error .keyError) (strL "f1") (strL "f2") default_bc_errors
    ⟨[], [], []⟩ ⟨[3], [strL "CA"], [⟨1763, -1⟩], [⟨1, -1⟩]⟩ (by decide) (by decide)

lemma expFold_append {fs : Str → List Str} :
    ∀ {as bs : List (Str × Str)} {parsed : List (Str × Stack)} {data : Table},
    expFold fs parsed data (as ++ bs) =
      (expFold fs parsed data as) >>= (fun r => expFold fs r.1 r.2 bs) := by
  intro as
  induction as with
  | nil => intro bs parsed data; simp only [List.nil_append, expFold, exceptBind_ok]
  | cons mf rest ih =>
    intro bs parsed data
    obtain ⟨module, fpath⟩ := mf
    simp only [List.cons_append, expFold]
    cases hm : expModule fs data module fpath with
    | error e => simp only [exceptBind_error]
    | ok r => simp only [exceptBind_ok]; exact ih

/-- C10: a modality name outside the eight recognized names matches no
dispatch branch of the experimental `try` body: its step consults no file,
records no error, and stores a container whose table is the current
leftover `data` — the initial empty float DataFrame when no recognized
modality preceded it, and the table left behind by the preceding modalities
otherwise. -/
theorem C10_unrecognized_passthrough (u : Str)
    (hu : ¬ u ∈ [saxs_name, cs_name, fret_name, jc_name, noe_name, pre_name,
      rdc_name, rh_name]) :
    (∀ (fs : Str → List Str) (pu : Str) (data : Table),
       expModule fs data u pu = .ok (data, ⟨u, data, none, none⟩)) ∧
    (∀ (fs : Str → List Str) (jfs : Str → Except PyErr JObj)
       (fns1 fns2 : List (Str × Str)) (pu : Str) (bc : BcErrors)
       (P : List (Str × Stack)) (d : Table),
       expFold fs [] Table.emptyFloat fns1 = .ok (P, d) →
       parse_data fs jfs (fns1 ++ (u, pu) :: fns2) parse_mode_exp bc =
         (expFold fs (dictSet P u ⟨u, d, none, none⟩) d fns2).map (fun r => (r.1, []))) := by
  simp only [List.mem_cons, List.mem_singleton, not_or] at hu
  obtain ⟨n1, n2, n3, n4, n5, n6, n7, n8⟩ := hu
  have hstep : ∀ (fs : Str → List Str) (pu : Str) (data : Table),
      expTryBody fs u pu data = .ok (.newData data) := by
    intro fs pu data
    unfold expTryBody
    rw [if_neg n1, if_neg n2, if_neg n3, if_neg n4, if_neg n5, if_neg n6,
      if_neg n7, if_neg n8.1]
  have hmod : ∀ (fs : Str → List Str) (pu : Str) (data : Table),
      expModule fs data u pu = .ok (data, ⟨u, data, none, none⟩) := by
    intro fs pu data
    unfold expModule
    rw [hstep fs pu data]
  refine ⟨hmod, ?_⟩
  intro fs jfs fns1 fns2 pu bc P d h1
  unfold parse_data
  rw [if_pos rfl, expFold_append, h1, exceptBind_ok]
  simp only [expFold, hmod fs pu d, exceptBind_ok]

/-- C10 witness: after a scattering modality, the unrecognized name `xyz`
is stored with the leftover scattering table, with no error logged; at the
head of the list its step stores the initial empty float table. -/
theorem C10_unrecognized_passthrough_witness :
    expModule (fun _ => [strL "1.0 2.0 0.1"]) Table.emptyFloat (strL "xyz") (strL "q") =
      .ok (Table.emptyFloat, ⟨strL "xyz", Table.emptyFloat, none, none⟩) ∧
    parse_data (fun _ => [strL "1.0 2.0 0.1"]) (fun _ => .error .keyError)
        ([(saxs_name, strL "f1")] ++ (strL "xyz", strL "q") :: []) parse_mode_exp
        default_bc_errors =
      (expFold (fun _ => [strL "1.0 2.0 0.1"])
         (dictSet [(saxs_name, ⟨saxs_name, .saxs ⟨[], [], []⟩, none, none⟩)] (strL "xyz")
           ⟨strL "xyz", .saxs ⟨[], [], []⟩, none, none⟩) (.saxs ⟨[], [], []⟩) []).map
        (fun r => (r.1, [])) :=
  ⟨(C10_unrecognized_passthrough (strL "xyz") (by decide)).1
      (fun _ => [strL "1.0 2.0 0.1"]) (strL "q") Table.emptyFloat,
   (C10_unrecognized_passthrough (strL "xyz") (by decide)).2
      (fun _ => [strL "1.0 2.0 0.1"]) (fun _ => .error .keyError)
      [(saxs_name, strL "f1")] [] (strL "q") default_bc_errors
      [(saxs_name, ⟨saxs_name, .saxs ⟨[], [], []⟩, none, none⟩)] (.saxs ⟨[], [], []⟩)
      (by decide)⟩

/-! ### Statement vocabulary for the merger claim: the key, the token and
the sigma value one override line stores, mirroring the two assignment
branches of `parse_bc_errors`. -/

/-- First whitespace token of an override line (the modality name). -/
def lineKey (l : Str) : Str := (pysplit l).getD 0 []

/-- Second whitespace token of an override line (the sigma literal). -/
def lineTok (l : Str) : Str := (pysplit l).getD 1 []

/-- The sigma an override line stores: numeric parse first, literal dict on
`ValueError`. -/
def lineSigma (l : Str) : SigmaVal :=
  match pyfloat? (lineTok l) with
  | some v => .num v
  | none => .table ((literalDict? (lineTok l)).getD [])

lemma dictGet?_cons {α : Type} (e : Str × α) (l : List (Str × α)) (x : Str) :
    dictGet? (e :: l) x = if e.1 = x then some e.2 else dictGet? l x := by
  unfold dictGet?
  by_cases he : e.1 = x
  · rw [List.find?_cons_of_pos _ (by simp [he]), if_pos he]
    rfl
  · rw [List.find?_cons_of_neg _ (by simp [he]), if_neg he]

lemma dictGet?_mapUpdate_ne {α : Type} (d : List (Str × α)) (k : Str) (v : α) {x : Str}
    (hx : ¬ x = k) :
    dictGet? (d.map (fun e => if e.1 = k then (k, v) else e)) x = dictGet? d x := by
  induction d with
  | nil => rfl
  | cons e rest ih =>
    simp only [List.map_cons]
    by_cases he : e.1 = k
    · rw [if_pos he, dictGet?_cons, dictGet?_cons]
      rw [if_neg (fun hc => hx hc.symm), if_neg (fun hc => hx (by rw [← hc, he]))]
      exact ih
    · rw [if_neg he, dictGet?_cons, dictGet?_cons]
      by_cases hex : e.1 = x
      · rw [if_pos hex, if_pos hex]
      · rw [if_neg hex, if_neg hex]
        exact ih

lemma dictGet?_mapUpdate_eq {α : Type} (d : List (Str × α)) (k : Str) (v : α)
    (hk : (d.any fun e => e.1 = k) = true) :
    dictGet? (d.map (fun e => if e.1 = k then (k, v) else e)) k = some v := by
  induction d with
  | nil => simp at hk
  | cons e rest ih =>
    simp only [List.map_cons]
    by_cases he : e.1 = k
    · rw [if_pos he, dictGet?_cons, if_pos rfl]
    · rw [if_neg he, dictGet?_cons, if_neg he]
      apply ih
      rcases List.any_eq_true.mp hk with ⟨y, hy, hyk⟩
      rcases List.mem_cons.mp hy with h | h
      · subst h
        exact absurd (of_decide_eq_true hyk) he
      · exact List.any_eq_true.mpr ⟨y, h, hyk⟩

lemma dictGet?_eq_none {α : Type} {d : List (Str × α)} {k : Str}
    (hk : ¬ (d.any fun e => e.1 = k) = true) : dictGet? d k = none := by
  unfold dictGet?
  rw [List.find?_eq_none.mpr ?_]
  · rfl
  · intro e he
    simp only [decide_eq_true_eq]
    intro hc
    exact hk (List.any_eq_true.mpr ⟨e, he, by simp [hc]⟩)

lemma dictGet?_dictSet {α : Type} (d : List (Str × α)) (k : Str) (v : α) (x : Str) :
    dictGet? (dictSet d k v) x = if x = k then some v else dictGet? d x := by
  unfold dictSet
  by_cases hk : (d.any fun e => e.1 = k) = true
  · rw [if_pos hk]
    by_cases hx : x = k
    · rw [if_pos hx, hx, dictGet?_mapUpdate_eq d k v hk]
    · rw [if_neg hx, dictGet?_mapUpdate_ne d k v hx]
  · rw [if_neg hk]
    by_cases hx : x = k
    · subst hx
      have h0 : dictGet? d x = none := dictGet?_eq_none hk
      rw [if_pos rfl]
      unfold dictGet? at h0 ⊢
      rw [List.find?_append]
      cases hd : d.find? fun e => e.1 = x with
      | some e => rw [hd] at h0; exact (Option.noConfusion h0)
      | none =>
        have hone : (List.find? (fun e => e.1 = x) [(x, v)]) = some (x, v) :=
          List.find?_cons_of_pos _ (by simp)
        rw [hone]
        rfl
    · rw [if_neg hx]
      unfold dictGet?
      rw [List.find?_append]
      cases hd : d.find? fun e => e.1 = x with
      | some e => rfl
      | none =>
        have hone : ([(k, v)].find? fun e => e.1 = x) = none := by
          rw [List.find?_cons_of_neg _ (by simpa using fun hc => hx hc.symm)]
          rfl
        rw [hone]
        rfl

lemma bcErrLine_ok (d : BcErrors) {l : Str}
    (hlen : 2 ≤ (pysplit l).length)
    (hval : pyfloat? (lineTok l) ≠ none ∨ literalDict? (lineTok l) ≠ none) :
    bcErrLine d l = .ok (dictSet d (lineKey l) (lineSigma l)) := by
  unfold bcErrLine
  cases hsp : pysplit l with
  | nil => rw [hsp] at hlen; simp at hlen
  | cons t0 ts =>
    cases ts with
    | nil => rw [hsp] at hlen; simp at hlen
    | cons t1 ts2 =>
      have hk : lineKey l = t0 := by simp [lineKey, hsp]
      have ht : lineTok l = t1 := by simp [lineTok, hsp]
      have hp0 : pyIndex (t0 :: t1 :: ts2) 0 = .ok t0 := rfl
      have hp1 : pyIndex (t0 :: t1 :: ts2) 1 = .ok t1 := rfl
      rw [ht] at hval
      cases hpf : pyfloat? t1 with
      | some v =>
        simp only [hp0, exceptBind_ok, hp1, hpf, lineSigma, ht, hk]
      | none =>
        cases hld : literalDict? t1 with
        | none =>
          rcases hval with hv | hv
          · exact absurd hpf hv
          · exact absurd hld hv
        | some kvs =>
          simp only [hp0, exceptBind_ok, hp1, hpf, hld, lineSigma, ht, hk,
            Option.getD_some]

lemma bcErrLoop_spec : ∀ (lines : List Str) (dflt : BcErrors),
    (∀ l ∈ lines, 2 ≤ (pysplit l).length ∧
      (pyfloat? (lineTok l) ≠ none ∨ literalDict? (lineTok l) ≠ none)) →
    (lines.map lineKey).Nodup →
    ∃ m, bcErrLoop dflt lines = .ok m ∧
      (∀ l ∈ lines, dictGet? m (lineKey l) = some (lineSigma l)) ∧
      (∀ x, (∀ l ∈ lines, ¬ lineKey l = x) → dictGet? m x = dictGet? dflt x) := by
  intro lines
  induction lines with
  | nil =>
    intro dflt _ _
    exact ⟨dflt, rfl, fun l hl => absurd hl (List.not_mem_nil l), fun x _ => rfl⟩
  | cons l rest ih =>
    intro dflt hwf hnd
    have hl := hwf l (by simp)
    have hline := bcErrLine_ok dflt hl.1 hl.2
    have hnd2 : lineKey l ∉ rest.map lineKey ∧ (rest.map lineKey).Nodup := by
      simpa [List.nodup_cons] using hnd
    obtain ⟨m, hm, hmem, hkeep⟩ := ih (dictSet dflt (lineKey l) (lineSigma l))
      (fun l2 hl2 => hwf l2 (by simp [hl2])) hnd2.2
    have hni : ∀ l2 ∈ rest, ¬ lineKey l2 = lineKey l := by
      intro l2 hl2 hc
      exact hnd2.1 (hc ▸ List.mem_map_of_mem lineKey hl2)
    refine ⟨m, ?_, ?_, ?_⟩
    · simp only [bcErrLoop, hline, exceptBind_ok]
      exact hm
    · intro l2 hl2
      rcases List.mem_cons.mp hl2 with h | h
      · subst h
        rw [hkeep (lineKey l2) hni, dictGet?_dictSet, if_pos rfl]
      · exact hmem l2 h
    · intro x hx
      rw [hkeep x (fun l2 hl2 => hx l2 (by simp [hl2])), dictGet?_dictSet,
        if_neg (fun hc => (hx l (by simp)) hc.symm)]

/-- C7: on an override file whose lines each hold a modality name and one
further token, `parse_bc_errors` returns a mapping sending each listed
modality to the numeric value of its token when the numeric parse succeeds
and otherwise to the safely evaluated dict literal, while every modality
not listed keeps its value from the default table. -/
theorem C7_bc_error_merge (dflt : BcErrors) (lines : List Str)
    (hwf : ∀ l ∈ lines, 2 ≤ (pysplit l).length ∧
      (pyfloat? (lineTok l) ≠ none ∨ literalDict? (lineTok l) ≠ none))
    (hnd : (lines.map lineKey).Nodup) :
    ∃ m, parse_bc_errors dflt lines = .ok m ∧
      (∀ l ∈ lines, dictGet? m (lineKey l) = some (lineSigma l)) ∧
      (∀ x, (∀ l ∈ lines, ¬ lineKey l = x) → dictGet? m x = dictGet? dflt x) :=
  bcErrLoop_spec lines dflt hwf hnd

/-- C7 witness: merging `pre 0.003` and a chemical-shift dict literal gives
exactly those sigma values, other modalities keeping their defaults. -/
theorem C7_bc_error_merge_witness :
    ∃ m, parse_bc_errors default_bc_errors
        [strL "pre 0.003",
         strL "cs " ++ [lbChar, sq] ++ strL "C" ++ [sq] ++ strL ":1.2," ++ [sq] ++
           strL "CA" ++ [sq] ++ strL ":0.84" ++ [rbChar]] = .ok m ∧
      (∀ l ∈ [strL "pre 0.003",
         strL "cs " ++ [lbChar, sq] ++ strL "C" ++ [sq] ++ strL ":1.2," ++ [sq] ++
           strL "CA" ++ [sq] ++ strL ":0.84" ++ [rbChar]],
        dictGet? m (lineKey l) = some (lineSigma l)) ∧
      (∀ x, (∀ l ∈ [strL "pre 0.003",
         strL "cs " ++ [lbChar, sq] ++ strL "C" ++ [sq] ++ strL ":1.2," ++ [sq] ++
           strL "CA" ++ [sq] ++ strL ":0.84" ++ [rbChar]], ¬ lineKey l = x) →
        dictGet? m x = dictGet? default_bc_errors x) :=
  C7_bc_error_merge default_bc_errors
    [strL "pre 0.003",
     strL "cs " ++ [lbChar, sq] ++ strL "C" ++ [sq] ++ strL ":1.2," ++ [sq] ++
       strL "CA" ++ [sq] ++ strL ":0.84" ++ [rbChar]]
    (by decide) (by decide)

end XEISD
